import Mathlib

/-!
# Verification of the ontology-alchemy declarative modeling layer

A shallow embedding of `ontology_alchemy/base.py`: URI generation
(`URISpecification.getURI`, `strip_from_uri`), instance construction
(`RDFS_Class.__init__`, embedded as `init`/`initAux`), type tagging
(`addType`), triple export (`iter_rdf_statements`) and domain/range
inference over the property-supertype hierarchy (`inferred_domain`,
`inferred_range`).

Python strings are `String`, Python ints are `Nat`, the millisecond clock
read `int(time.time() * 1000)` is an explicit `timeMs : Nat` parameter, and
raisable errors are the `Except PyErr` monad.  The `PropertyProxy`
container class lives in `ontology_alchemy/proxy.py`, which is not among
the staged sources; following the spec (§4.1) it is modelled as an
append-only ordered list of values.
-/

namespace OntologyAlchemy

/-- Error values construction and lookup can raise.  `attributeError` is
Python's builtin `AttributeError` (raised by `getattr` on a missing
attribute), `keyError` its `KeyError` (raised by `dict1["label"]`),
`typeError` its `TypeError` (raised by `+=` on a non-container attribute).
`unknownPropertyError` is modelled from the spec: the spec's error taxonomy
(§7) names `UnknownPropertyError`, but no such exception exists anywhere in
the staged code; the constructor is declared only so that statements can
compare the error the code actually raises against the one the spec
names. -/
inductive PyErr where
  | attributeError (name : String)
  | keyError (key : String)
  | typeError (name : String)
  | unknownPropertyError (name : String)
deriving DecidableEq, Repr

instance {ε α : Type} [DecidableEq ε] [DecidableEq α] : DecidableEq (Except ε α) := fun a b =>
  match a, b with
  | .error x, .error y =>
    decidable_of_iff (x = y) ⟨fun h => by rw [h], fun h => by injection h⟩
  | .ok x, .ok y =>
    decidable_of_iff (x = y) ⟨fun h => by rw [h], fun h => by injection h⟩
  | .error _, .ok _ => isFalse (fun h => Except.noConfusion h)
  | .ok _, .error _ => isFalse (fun h => Except.noConfusion h)

/-- One step of the ROT13 character substitution:
`codecs.encode(·, "rot-13")` applied to a single character.  Letters are
rotated by 13 inside their case's alphabet; all other characters are
unchanged. -/
def rot13Char (c : Char) : Char :=
  if 'a' ≤ c ∧ c ≤ 'z' then Char.ofNat ((c.toNat - 'a'.toNat + 13) % 26 + 'a'.toNat)
  else if 'A' ≤ c ∧ c ≤ 'Z' then Char.ofNat ((c.toNat - 'A'.toNat + 13) % 26 + 'A'.toNat)
  else c

/-- `codecs.encode(s, "rot-13")`: ROT13 applied characterwise. -/
def rot13 (s : String) : String := String.mk (s.data.map rot13Char)

/-- The splitting performed by `re.split("\|/|#", uri)`.  The regular
expression `\|/|#` has two alternatives: the literal two-character sequence
`|/` (the backslash escapes the pipe, so the pipe is literal and the `/`
belongs to the same alternative) and the single character `#`.  The scan is
left to right; a segment ends at each match. -/
def regexSplitAux (l acc : List Char) : List (List Char) :=
  match l with
  | [] => [acc.reverse]
  | '|' :: '/' :: rest => acc.reverse :: regexSplitAux rest []
  | '#' :: rest => acc.reverse :: regexSplitAux rest []
  | c :: rest => regexSplitAux rest (c :: acc)

/-- `strip_from_uri(uri)`: `re.split("\|/|#", uri)[-1]` — the last segment
of the split.  (`re.split` always returns a non-empty list, so the `[-1]`
index never fails; `getLastD` is supplied the unreachable default.) -/
def strip_from_uri (uri : String) : String :=
  String.mk ((regexSplitAux uri.data []).getLastD [])

/-- Fuel-indexed little-endian decimal digits of a natural number: the
digit lists produced by repeated `% 10` / `/ 10`.  `decDigitsAux fuel n`
is the full digit list whenever `n < fuel`. -/
def decDigitsAux : Nat → Nat → List Nat
  | 0, _ => []
  | _ + 1, 0 => []
  | fuel + 1, n + 1 => ((n + 1) % 10) :: decDigitsAux fuel ((n + 1) / 10)

/-- Python's `str` applied to a non-negative int: the decimal rendering,
most significant digit first, with `0` rendered as `"0"`. -/
def natToString (n : Nat) : String :=
  String.mk (((if n = 0 then [0] else decDigitsAux (n + 1) n).map Nat.digitChar).reverse)

/-- Lookup in a Python dict modelled as an association list:
`d[k]` yields the value, or `none` where Python raises `KeyError`. -/
def lookupKey (d : List (String × String)) (k : String) : Option String :=
  (d.find? (fun kv => kv.1 = k)).map (fun kv => kv.2)

/-- `URISpecification(def_base_uri, dict1)`: the generator handle passed to
construction as the `uri` argument.  `dict1` is the seed dictionary the
caller supplies (`getURI` reads its `"label"` entry). -/
structure URISpecification where
  def_base_uri : String
  dict1 : List (String × String)
deriving DecidableEq, Repr

/-- `URISpecification.getURI(fullType)`:
`base_uri + strip_from_uri(fullType) + "/" + rot13(dict1["label"]) + "-" + str(int(time.time()*1000))`.
The clock read is the explicit `timeMs` argument; a missing `"label"` key
is Python's `KeyError`, rendered as `none`. -/
def URISpecification.getURI (spec : URISpecification) (fullType : String) (timeMs : Nat) :
    Option String :=
  (lookupKey spec.dict1 "label").map (fun lab =>
    spec.def_base_uri ++ strip_from_uri fullType ++ "/" ++ rot13 lab ++ "-" ++ natToString timeMs)

/-- Opaque identifier value of `RDFS.label` (the namespace constants are
external opaque strings, spec §1). -/
def rdfsLabelURI : String := "rdfs:label"

/-- Opaque identifier value of `SKOS.prefLabel`. -/
def skosPrefLabelURI : String := "skos:prefLabel"

/-- Opaque identifier value of `RDFS.comment`. -/
def rdfsCommentURI : String := "rdfs:comment"

/-- Opaque identifier value of `RDFS.seeAlso`. -/
def rdfsSeeAlsoURI : String := "rdfs:seeAlso"

/-- Opaque identifier value of `RDFS.isDefinedBy`. -/
def rdfsIsDefinedByURI : String := "rdfs:isDefinedBy"

/-- Opaque identifier value of `RDF.value`. -/
def rdfValueURI : String := "rdf:value"

/-- Opaque identifier value of `RDF.type`. -/
def rdfTypeURI : String := "rdf:type"

/-- Modelled from the spec: the `PropertyProxy` container
(`ontology_alchemy/proxy.py`, not among the staged sources).  Per spec §3
and §4.1 it is a mutable ordered multiset attached to one (entity,
property) pair: `name` and `uri` identify the property, `values` holds the
appended values in assignment order; `+=` appends and iteration yields the
values in that order.  Property values (literals and references alike) are
opaque `String`s. -/
structure PropertyProxy where
  name : String
  uri : String
  values : List String
deriving DecidableEq, Repr

/-- The state of one `RDFS_Class` instance: its `__dict__`, split into the
`PropertyProxy`-valued attributes (in insertion order: the universal
proxies, `type` last among them, then one proxy per declared property), the
`uriHandle` attribute, and the `uri` attribute — `none` models the
attribute never having been assigned (Python: `getattr` raises
`AttributeError`). -/
structure Instance where
  containers : List PropertyProxy
  uriHandle : Option URISpecification
  uri : Option String
deriving DecidableEq, Repr

/-- A dynamically generated ontology class as construction sees it:
`__uri__` (its identifier) and `__properties__` (the declared property
classes, each contributing an attribute name and a property identifier). -/
structure OntClass where
  uri : String
  properties : List (String × String)
deriving DecidableEq, Repr

/-- The proxies `RDFS_Class.__init__` creates before reading `kwargs`, in
assignment order; `type` is assigned after `uriHandle`, hence last. -/
def universalContainers : List PropertyProxy :=
  [⟨"label", rdfsLabelURI, []⟩, ⟨"prefLabel", skosPrefLabelURI, []⟩,
   ⟨"comment", rdfsCommentURI, []⟩, ⟨"seeAlso", rdfsSeeAlsoURI, []⟩,
   ⟨"isDefinedBy", rdfsIsDefinedByURI, []⟩, ⟨"value", rdfValueURI, []⟩,
   ⟨"type", rdfTypeURI, []⟩]

/-- The attribute names the universal proxies occupy. -/
def universalNames : List String :=
  ["label", "prefLabel", "comment", "seeAlso", "isDefinedBy", "value", "type"]

/-- `property_proxy += v` on the attribute named `n`: append `v` to the
(unique) container carrying that attribute name, leaving every other
container as it is. -/
def appendToContainer (cs : List PropertyProxy) (n v : String) : List PropertyProxy :=
  match cs with
  | [] => []
  | c :: rest =>
    if c.name = n then { c with values := c.values ++ [v] } :: rest
    else c :: appendToContainer rest n v

/-- `RDFS_Class.addType(uri)`: `getattr(self, "type") += uri`. -/
def addType (inst : Instance) (uri : String) : Instance :=
  { inst with containers := appendToContainer inst.containers "type" uri }

/-- The methods `RDFS_Class` defines: `getattr` resolves these names on
the class when no instance attribute shadows them, and `+=` on a bound
method is Python's `TypeError`. -/
def classMethodNames : List String :=
  ["addType", "iter_rdf_statements", "getInstanceUri"]

/-- Whether an attribute name is a Python dunder name (two leading and two
trailing underscores).  Beyond `__uri__` and `__properties__`, which this
program defines and which are modelled explicitly, every remaining
attribute a bare `getattr` can still find on a generated class is
inherited from Python's own object machinery (`__class__`, `__dict__`,
`__doc__`, …) — all dunder names; they are outside the modelled lookup
and excluded by this predicate in the theorems where the distinction
matters. -/
def isDunder (k : String) : Bool :=
  (k.data.take 2 == ['_', '_']) && (k.data.reverse.take 2 == ['_', '_'])

/-- One iteration of the `kwargs` loop of `RDFS_Class.__init__`, i.e.
`property_proxy = getattr(self, k); property_proxy += v`, with `getattr`'s
instance-then-class resolution order:
* `imposeURI` is intercepted before any lookup and overwrites `self.uri`;
* a name carried by a proxy appends to it;
* `uriHandle` holds a `URISpecification` (or `None`), on which `+=` is
  Python's `TypeError`;
* `uri`, when assigned, holds a `str`, on which `+=` rebinds only the
  local name (no state change, construction continues), and when
  unassigned the lookup falls through to the class, finds nothing, and
  `getattr` raises `AttributeError`;
* the class's methods (`classMethodNames`) resolve to bound methods, on
  which `+=` is `TypeError`;
* `__uri__` resolves to the class identifier string (`OntClass.uri`
  models it as always a string; on a class left with the metaclass
  default `__uri__ = None` the `+=` would instead be a `TypeError`), and
  `+=` rebinds only the local name — construction continues;
* `__properties__` resolves to the class's property list, which `+=`
  extends in place — a class-level side effect outside the per-instance
  state modelled here; this construction continues unaffected, since its
  proxies were created before the `kwargs` loop;
* any other non-dunder name matches nothing on the instance or the class
  (the metaclass-installed class proxies — `label`, `comment`, … — are
  always shadowed by the instance proxies created first, and `domain`/
  `range` class proxies exist only on property classes, whose instances
  are outside this `RDFS_Class` instance model), so `getattr` raises
  `AttributeError`.  Remaining dunder names hit inherited object
  machinery and are outside the modelled lookup (see `isDunder`). -/
def applyKwarg (inst : Instance) (k v : String) : Except PyErr Instance :=
  if k = "imposeURI" then .ok { inst with uri := some v }
  else if inst.containers.any (fun c => c.name = k) then
    .ok { inst with containers := appendToContainer inst.containers k v }
  else if k = "uriHandle" then .error (.typeError k)
  else if k = "uri" then
    match inst.uri with
    | some _ => .ok inst
    | none => .error (.attributeError k)
  else if k ∈ classMethodNames then .error (.typeError k)
  else if k = "__uri__" then .ok inst
  else if k = "__properties__" then .ok inst
  else .error (.attributeError k)

/-- The `kwargs` loop of `RDFS_Class.__init__`, instrumented with the list
of values assigned to `self.uri` so far (`writes`), in assignment order. -/
def applyKwargsAux (inst : Instance) (writes : List String)
    (kwargs : List (String × String)) : Except PyErr (Instance × List String) :=
  match kwargs with
  | [] => .ok (inst, writes)
  | (k, v) :: rest =>
    match applyKwarg inst k v with
    | .error e => .error e
    | .ok inst2 => applyKwargsAux inst2 (if k = "imposeURI" then writes ++ [v] else writes) rest

/-- The instance state after the proxy-creation and `uriHandle` assignments
of `RDFS_Class.__init__`, before URI generation and the `kwargs` loop: the
universal proxies, then one fresh proxy per declared property, `uriHandle`
holding the `uri` argument, and `self.uri` not yet assigned. -/
def initialInstance (cls : OntClass) (uriArg : Option URISpecification) : Instance :=
  { containers := universalContainers ++ cls.properties.map (fun p => ⟨p.1, p.2, []⟩),
    uriHandle := uriArg, uri := none }

/-- The URI-generation step of `RDFS_Class.__init__`:
`if uri != None: self.uri = self.uriHandle.getURI(self.__class__.__uri__)`,
paired with the `self.uri` writes it performs.  A missing `"label"` key in
the handle's seed dictionary surfaces as Python's `KeyError`. -/
def generationStep (cls : OntClass) (uriArg : Option URISpecification) (timeMs : Nat) :
    Except PyErr (Instance × List String) :=
  match uriArg with
  | none => .ok (initialInstance cls none, [])
  | some handle =>
    match handle.getURI cls.uri timeMs with
    | none => .error (.keyError "label")
    | some u => .ok ({ initialInstance cls (some handle) with uri := some u }, [u])

/-- `RDFS_Class.__init__(uri=uriArg, **kwargs)`, instrumented: the result
pairs the finished instance with the list of values assigned to `self.uri`
during construction, in order.  Steps, as in the source: create the
universal proxies and one proxy per declared property and store `uriArg`
in `uriHandle` (`initialInstance`); when `uriArg` is not `None`, assign
`self.uri = uriArg.getURI(cls.__uri__)` (`generationStep`); run the
`kwargs` loop (`applyKwargsAux`); finally `self.addType(cls.__uri__)`.
(The trailing `Session.register_instance` call only indexes the instance
and is outside this model.) -/
def initAux (cls : OntClass) (uriArg : Option URISpecification)
    (kwargs : List (String × String)) (timeMs : Nat) :
    Except PyErr (Instance × List String) :=
  match generationStep cls uriArg timeMs with
  | .error e => .error e
  | .ok (inst1, ws1) =>
    match applyKwargsAux inst1 ws1 kwargs with
    | .error e => .error e
    | .ok (inst2, ws2) => .ok (addType inst2 cls.uri, ws2)

/-- `RDFS_Class.__init__` proper: the constructed instance. -/
def init (cls : OntClass) (uriArg : Option URISpecification)
    (kwargs : List (String × String)) (timeMs : Nat) : Except PyErr Instance :=
  (initAux cls uriArg kwargs timeMs).map (fun p => p.1)

/-- `RDFS_Class.iter_rdf_statements()`, run to a list: for every
`PropertyProxy` in `__dict__` (in insertion order), for every value in it
(in assignment order), the triple `(self.uri, proxy.uri, value)`.  The
non-proxy attributes (`uriHandle`, `uri`) are skipped by the `isinstance`
check.  When `self.uri` was never assigned, Python raises `AttributeError`
at the first triple — so only when some container is non-empty. -/
def iter_rdf_statements (inst : Instance) :
    Except PyErr (List (String × String × String)) :=
  match inst.uri with
  | some u => .ok (inst.containers.flatMap (fun c => c.values.map (fun v => (u, c.uri, v))))
  | none =>
    if inst.containers.all (fun c => c.values.isEmpty) then .ok []
    else .error (.attributeError "uri")

/-- The values held by the instance's `type` container. -/
def typeValues (inst : Instance) : Option (List String) :=
  (inst.containers.find? (fun c => c.name = "type")).map (fun c => c.values)

/-- Whether a construction result is a raised `UnknownPropertyError` (the
error the spec's taxonomy names). -/
def isUnknownPropertyResult : Except PyErr Instance → Bool
  | .error (.unknownPropertyError _) => true
  | _ => false

/-- A property class as `inferred_domain`/`inferred_range` see it: its own
`domain.values` and `range.values` restriction lists and its base property
classes (`cls.__bases__`).  Python base-class hierarchies are created by
class statements, so they are finite and acyclic; a shared ancestor (a
DAG) appears once per path when the hierarchy is unfolded, which is
exactly how the recursion visits it.  The guard
`getattr(base_class, 'domain', None)` keeps only the bases that are
property classes (only `RDF_PropertyMeta` installs a `domain` proxy);
modelled from the spec for the proxy's truth value (`proxy.py` is not
among the staged sources): per §4.3 every refined `PropertyDeclaration`
is traversed, so a property base passes the guard. -/
inductive PropNode where
  | mk (domain : List String) (range : List String) (bases : List PropNode)

/-- `cls.domain.values` of a property class. -/
def PropNode.domain : PropNode → List String
  | .mk d _ _ => d

/-- `cls.range.values` of a property class. -/
def PropNode.range : PropNode → List String
  | .mk _ r _ => r

/-- The property base classes of a property class. -/
def PropNode.bases : PropNode → List PropNode
  | .mk _ _ bs => bs

mutual
/-- `RDF_Property.inferred_domain()`:
`cls.domain.values + list(chain.from_iterable(b.inferred_domain() for b in cls.__bases__ if getattr(b, 'domain', None)))` —
the own restriction list followed by the concatenated recursive results of
the property bases, in base order. -/
def inferred_domain : PropNode → List String
  | .mk d _ bs => d ++ inferredDomainList bs

/-- `chain.from_iterable` over the bases for `inferred_domain`. -/
def inferredDomainList : List PropNode → List String
  | [] => []
  | n :: rest => inferred_domain n ++ inferredDomainList rest
end

mutual
/-- `RDF_Property.inferred_range()`: as `inferred_domain`, over the
`range` restriction lists. -/
def inferred_range : PropNode → List String
  | .mk _ r bs => r ++ inferredRangeList bs

/-- `chain.from_iterable` over the bases for `inferred_range`. -/
def inferredRangeList : List PropNode → List String
  | [] => []
  | n :: rest => inferred_range n ++ inferredRangeList rest
end

mutual
/-- The recursion depth of a property hierarchy: 1 at a leaf, one more
than the deepest base otherwise. -/
def PropNode.depth : PropNode → Nat
  | .mk _ _ bs => depthList bs + 1

/-- The deepest hierarchy in a list of property classes (0 for none). -/
def depthList : List PropNode → Nat
  | [] => 0
  | n :: rest => max n.depth (depthList rest)
end

/-- The recursion of `inferred_domain` with its call depth made explicit:
`none` means the computation is still recursing when the allotted depth
(`fuel`) is exhausted.  `inferredDomainFuel (depth p) p` completes and
agrees with `inferred_domain p`. -/
def inferredDomainFuel : Nat → PropNode → Option (List String)
  | 0, _ => none
  | fuel + 1, .mk d _ bs =>
    (bs.mapM (fun b => inferredDomainFuel fuel b)).map (fun ls => d ++ ls.flatten)

/-- `inferred_range` with its call depth made explicit. -/
def inferredRangeFuel : Nat → PropNode → Option (List String)
  | 0, _ => none
  | fuel + 1, .mk _ r bs =>
    (bs.mapM (fun b => inferredRangeFuel fuel b)).map (fun ls => r ++ ls.flatten)

/-- A property-supertype graph that, unlike a Python class hierarchy, may
contain cycles (spec §8: "any acyclic supertype graph artificially closed
into a cycle"): nodes are property names, each carrying its own domain
restrictions and the names of the properties it refines. -/
structure PGraph where
  domain : String → List String
  bases : String → List String

/-- The recursion of `inferred_domain` read over a `PGraph`, with its call
depth made explicit as for `inferredDomainFuel`: `none` means the
recursion is still running when the allotted depth is exhausted.  No
constructor of `PyErr` appears: the source performs no cycle detection and
defines no exception to raise on one. -/
def inferredDomainGraph (g : PGraph) : Nat → String → Option (List String)
  | 0, _ => none
  | fuel + 1, p =>
    ((g.bases p).mapM (fun b => inferredDomainGraph g fuel b)).map
      (fun ls => g.domain p ++ ls.flatten)

/-- The one-node graph whose single property `"p"` refines itself: the
smallest supertype graph closed into a cycle. -/
def selfLoopGraph : PGraph :=
  { domain := fun _ => ["X"], bases := fun _ => ["p"] }

/-- A class with identifier `ns#C` and no declared properties, used as a
concrete input. -/
def demoClass : OntClass := ⟨"ns#C", []⟩

/-- A generator handle with base `b/` and seed label `a`, used as a
concrete input. -/
def demoHandle : URISpecification := ⟨"b/", [("label", "a")]⟩

/-- The diamond hierarchy of spec §4.3: property `pDiamondTop` carries the
domain restriction `X` and the range restriction `Y`.  Every ancestor of
the diamond carries non-empty restriction lists, so each base passes the
`getattr(base_class, 'domain', None)` guard under any truth value a
non-empty proxy could have. -/
def pDiamondTop : PropNode := .mk ["X"] ["Y"] []

/-- Left edge of the diamond: refines `pDiamondTop`. -/
def pDiamondLeft : PropNode := .mk ["L"] ["M"] [pDiamondTop]

/-- Right edge of the diamond: refines `pDiamondTop`. -/
def pDiamondRight : PropNode := .mk ["R"] ["S"] [pDiamondTop]

/-- Bottom of the diamond: refines both edges, so `pDiamondTop` is
reachable along two ancestor paths. -/
def pDiamondBottom : PropNode := .mk [] [] [pDiamondLeft, pDiamondRight]

/-! ## Decimal rendering: `str(n)` is injective -/

/-- The value a little-endian digit list denotes. -/
def evalDigits (l : List Nat) : Nat := l.foldr (fun d acc => d + 10 * acc) 0

theorem decDigitsAux_lt_ten : ∀ fuel n d, d ∈ decDigitsAux fuel n → d < 10 := by
  intro fuel
  induction fuel with
  | zero => intro n d h; simp [decDigitsAux] at h
  | succ f ih =>
    intro n d h
    match n with
    | 0 => simp [decDigitsAux] at h
    | m + 1 =>
      simp only [decDigitsAux, List.mem_cons] at h
      rcases h with h | h
      · subst h; exact Nat.mod_lt _ (by omega)
      · exact ih _ _ h

theorem evalDigits_decDigitsAux : ∀ fuel n, n < fuel → evalDigits (decDigitsAux fuel n) = n := by
  intro fuel
  induction fuel with
  | zero => intro n h; omega
  | succ f ih =>
    intro n h
    match n with
    | 0 => simp [decDigitsAux, evalDigits]
    | m + 1 =>
      have hlt : (m + 1) / 10 < f := by
        have hd := Nat.div_lt_self (Nat.succ_pos m) (by omega : 1 < 10)
        omega
      have h2 := ih ((m + 1) / 10) hlt
      unfold evalDigits at h2 ⊢
      simp only [decDigitsAux, List.foldr_cons]
      rw [h2]
      omega

theorem digitChar_inj_lt_ten : ∀ a < 10, ∀ b < 10, Nat.digitChar a = Nat.digitChar b → a = b := by
  decide

theorem map_digitChar_inj : ∀ l1 l2 : List Nat, (∀ d ∈ l1, d < 10) → (∀ d ∈ l2, d < 10) →
    l1.map Nat.digitChar = l2.map Nat.digitChar → l1 = l2 := by
  intro l1
  induction l1 with
  | nil =>
    intro l2 _ _ h
    cases l2 with
    | nil => rfl
    | cons b t => simp at h
  | cons a t ih =>
    intro l2 h1 h2 h
    cases l2 with
    | nil => simp at h
    | cons b t2 =>
      simp only [List.map_cons, List.cons.injEq] at h
      have hab : a = b :=
        digitChar_inj_lt_ten a (h1 a (by simp)) b (h2 b (by simp)) h.1
      have ht : t = t2 :=
        ih t2 (fun d hd => h1 d (by simp [hd])) (fun d hd => h2 d (by simp [hd])) h.2
      rw [hab, ht]

/-- The digit list `natToString` renders, before the character map. -/
def decDigits (n : Nat) : List Nat := if n = 0 then [0] else decDigitsAux (n + 1) n

theorem decDigits_lt_ten (n : Nat) : ∀ d ∈ decDigits n, d < 10 := by
  intro d hd
  unfold decDigits at hd
  split at hd
  · simp at hd; omega
  · exact decDigitsAux_lt_ten _ _ _ hd

theorem evalDigits_decDigits (n : Nat) : evalDigits (decDigits n) = n := by
  unfold decDigits
  split
  · simp [evalDigits]; omega
  · exact evalDigits_decDigitsAux _ _ (Nat.lt_succ_self n)

theorem natToString_injective : ∀ m n : Nat, natToString m = natToString n → m = n := by
  intro m n h
  have hdata : ((decDigits m).map Nat.digitChar).reverse = ((decDigits n).map Nat.digitChar).reverse :=
    congrArg String.data h
  have hmap := List.reverse_injective hdata
  have hlists := map_digitChar_inj _ _ (decDigits_lt_ten m) (decDigits_lt_ten n) hmap
  have := congrArg evalDigits hlists
  rwa [evalDigits_decDigits, evalDigits_decDigits] at this

/-- Distinct clock readings give distinct generated URIs: the generated
string is a fixed prefix followed by the decimal rendering of the
millisecond timestamp, and decimal rendering is injective. -/
theorem getURI_time_injective (spec : URISpecification) (fullType lab : String) (t1 t2 : Nat)
    (hlab : lookupKey spec.dict1 "label" = some lab) (ht : t1 ≠ t2) :
    spec.getURI fullType t1 ≠ spec.getURI fullType t2 := by
  unfold URISpecification.getURI
  rw [hlab]
  simp only [Option.map_some']
  intro h
  have h2 := Option.some.inj h
  apply ht
  apply natToString_injective
  apply String.ext
  have hd := congrArg String.data h2
  rw [String.data_append, String.data_append] at hd
  exact List.append_cancel_left hd

/-! ## Domain/range inference over the property hierarchy -/

theorem inferredDomainList_count (bs : List PropNode) (x : String) :
    (inferredDomainList bs).count x = (bs.map (fun b => (inferred_domain b).count x)).sum := by
  induction bs with
  | nil => simp [inferredDomainList]
  | cons n rest ih => simp [inferredDomainList, List.count_append, ih]

theorem inferredDomainList_mem (bs : List PropNode) (x : String) :
    x ∈ inferredDomainList bs ↔ ∃ b ∈ bs, x ∈ inferred_domain b := by
  induction bs with
  | nil => simp [inferredDomainList]
  | cons n rest ih => simp [inferredDomainList, List.mem_append, ih]

theorem inferredRangeList_count (bs : List PropNode) (x : String) :
    (inferredRangeList bs).count x = (bs.map (fun b => (inferred_range b).count x)).sum := by
  induction bs with
  | nil => simp [inferredRangeList]
  | cons n rest ih => simp [inferredRangeList, List.count_append, ih]

theorem inferredRangeList_mem (bs : List PropNode) (x : String) :
    x ∈ inferredRangeList bs ↔ ∃ b ∈ bs, x ∈ inferred_range b := by
  induction bs with
  | nil => simp [inferredRangeList]
  | cons n rest ih => simp [inferredRangeList, List.mem_append, ih]

theorem inferredDomainList_eq_flatten (bs : List PropNode) :
    inferredDomainList bs = (bs.map inferred_domain).flatten := by
  induction bs with
  | nil => rfl
  | cons n rest ih => simp [inferredDomainList, ih]

theorem inferredRangeList_eq_flatten (bs : List PropNode) :
    inferredRangeList bs = (bs.map inferred_range).flatten := by
  induction bs with
  | nil => rfl
  | cons n rest ih => simp [inferredRangeList, ih]

theorem depth_le_depthList (bs : List PropNode) (b : PropNode) (hb : b ∈ bs) :
    b.depth ≤ depthList bs := by
  induction bs with
  | nil => simp at hb
  | cons n rest ih =>
    rcases List.mem_cons.mp hb with h | h
    · subst h; simp [depthList, Nat.le_max_left]
    · calc b.depth ≤ depthList rest := ih h
        _ ≤ max n.depth (depthList rest) := Nat.le_max_right _ _
        _ = depthList (n :: rest) := rfl

theorem mapM_inferredDomainFuel (n : Nat) (bs : List PropNode)
    (h : ∀ b ∈ bs, inferredDomainFuel n b = some (inferred_domain b)) :
    bs.mapM (fun b => inferredDomainFuel n b) = some (bs.map inferred_domain) := by
  induction bs with
  | nil => rfl
  | cons b rest ih =>
    rw [List.mapM_cons, h b (by simp)]
    rw [ih (fun q hq => h q (by simp [hq]))]
    rfl

theorem mapM_inferredRangeFuel (n : Nat) (bs : List PropNode)
    (h : ∀ b ∈ bs, inferredRangeFuel n b = some (inferred_range b)) :
    bs.mapM (fun b => inferredRangeFuel n b) = some (bs.map inferred_range) := by
  induction bs with
  | nil => rfl
  | cons b rest ih =>
    rw [List.mapM_cons, h b (by simp)]
    rw [ih (fun q hq => h q (by simp [hq]))]
    rfl

theorem inferredDomainFuel_complete : ∀ n p, PropNode.depth p ≤ n →
    inferredDomainFuel n p = some (inferred_domain p) := by
  intro n
  induction n with
  | zero =>
    intro p hp
    obtain ⟨d, r, bs⟩ := p
    simp [PropNode.depth] at hp
  | succ f ih =>
    intro p hp
    obtain ⟨d, r, bs⟩ := p
    have hbs : ∀ b ∈ bs, inferredDomainFuel f b = some (inferred_domain b) := by
      intro b hb
      apply ih
      have h1 := depth_le_depthList bs b hb
      have h2 : depthList bs + 1 ≤ f + 1 := hp
      omega
    simp only [inferredDomainFuel, mapM_inferredDomainFuel f bs hbs, Option.map_some']
    rw [inferred_domain, inferredDomainList_eq_flatten]

theorem inferredRangeFuel_complete : ∀ n p, PropNode.depth p ≤ n →
    inferredRangeFuel n p = some (inferred_range p) := by
  intro n
  induction n with
  | zero =>
    intro p hp
    obtain ⟨d, r, bs⟩ := p
    simp [PropNode.depth] at hp
  | succ f ih =>
    intro p hp
    obtain ⟨d, r, bs⟩ := p
    have hbs : ∀ b ∈ bs, inferredRangeFuel f b = some (inferred_range b) := by
      intro b hb
      apply ih
      have h1 := depth_le_depthList bs b hb
      have h2 : depthList bs + 1 ≤ f + 1 := hp
      omega
    simp only [inferredRangeFuel, mapM_inferredRangeFuel f bs hbs, Option.map_some']
    rw [inferred_range, inferredRangeList_eq_flatten]

theorem selfLoop_never_completes : ∀ fuel, inferredDomainGraph selfLoopGraph fuel "p" = none := by
  intro fuel
  induction fuel with
  | zero => rfl
  | succ f ih =>
    rw [show inferredDomainGraph selfLoopGraph (f + 1) "p" =
        ((selfLoopGraph.bases "p").mapM (fun b => inferredDomainGraph selfLoopGraph f b)).map
          (fun ls => selfLoopGraph.domain "p" ++ ls.flatten) from rfl]
    rw [show selfLoopGraph.bases "p" = ["p"] from rfl]
    rw [List.mapM_cons, ih]
    rfl

/-! ## Construction: container and kwargs-loop lemmas -/

/-- The values the `kwargs` loop assigns to `self.uri`, in order: one per
`imposeURI` entry. -/
def overrideValues (kwargs : List (String × String)) : List String :=
  (kwargs.filter (fun kv => kv.1 = "imposeURI")).map (fun kv => kv.2)

theorem appendToContainer_names (cs : List PropertyProxy) (n v : String) :
    (appendToContainer cs n v).map PropertyProxy.name = cs.map PropertyProxy.name := by
  induction cs with
  | nil => rfl
  | cons c rest ih =>
    by_cases h : c.name = n <;> simp [appendToContainer, h, ih]

theorem find?_appendToContainer_ne (cs : List PropertyProxy) (k v n : String) (h : k ≠ n) :
    (appendToContainer cs k v).find? (fun c => c.name = n) =
      cs.find? (fun c => c.name = n) := by
  induction cs with
  | nil => rfl
  | cons c rest ih =>
    by_cases hc : c.name = k
    · have hcn : ¬ c.name = n := by rw [hc]; exact h
      simp [appendToContainer, hc, List.find?_cons, hcn, h]
    · by_cases hn : c.name = n <;>
        simp [appendToContainer, hc, List.find?_cons, hn, ih, h, Ne.symm h]

theorem find?_appendToContainer_self (cs : List PropertyProxy) (k v : String) :
    (appendToContainer cs k v).find? (fun c => c.name = k) =
      (cs.find? (fun c => c.name = k)).map (fun c => { c with values := c.values ++ [v] }) := by
  induction cs with
  | nil => rfl
  | cons c rest ih =>
    by_cases hc : c.name = k <;> simp [appendToContainer, hc, List.find?_cons, ih]

theorem getElem?_appendToContainer_ne (cs : List PropertyProxy) (n v : String) :
    ∀ (i : Nat) (c : PropertyProxy), cs[i]? = some c → c.name ≠ n →
      (appendToContainer cs n v)[i]? = some c := by
  induction cs with
  | nil => intro i c hi; simp at hi
  | cons c0 rest ih =>
    intro i c hi hc
    match i with
    | 0 =>
      simp only [List.getElem?_cons_zero, Option.some.injEq] at hi
      rw [← hi] at hc ⊢
      rw [show appendToContainer (c0 :: rest) n v =
        (if c0.name = n then { c0 with values := c0.values ++ [v] } :: rest
         else c0 :: appendToContainer rest n v) from rfl]
      rw [if_neg hc]
      simp
    | i + 1 =>
      simp only [List.getElem?_cons_succ] at hi
      by_cases h0 : c0.name = n
      · rw [show appendToContainer (c0 :: rest) n v =
          if c0.name = n then { c0 with values := c0.values ++ [v] } :: rest
          else c0 :: appendToContainer rest n v from rfl]
        rw [if_pos h0]
        simpa using hi
      · rw [show appendToContainer (c0 :: rest) n v =
          if c0.name = n then { c0 with values := c0.values ++ [v] } :: rest
          else c0 :: appendToContainer rest n v from rfl]
        rw [if_neg h0]
        simpa using ih i c hi hc

theorem any_name_eq_false (cs : List PropertyProxy) (k : String)
    (h : ∀ c ∈ cs, c.name ≠ k) : cs.any (fun c => c.name = k) = false := by
  simp only [List.any_eq_false, decide_eq_true_eq]
  exact h

/-- Case analysis of one `kwargs` iteration that did not raise: either the
key was `imposeURI` and only `self.uri` changed, or the key was something
else and `self.uri`, `uriHandle`, the attribute names, and every container
with a different name are untouched. -/
theorem applyKwarg_ok (inst : Instance) (k v : String) (inst2 : Instance)
    (h : applyKwarg inst k v = .ok inst2) :
    (k = "imposeURI" ∧ inst2 = { inst with uri := some v }) ∨
    (k ≠ "imposeURI" ∧ inst2.uri = inst.uri ∧ inst2.uriHandle = inst.uriHandle ∧
      inst2.containers.map PropertyProxy.name = inst.containers.map PropertyProxy.name ∧
      (∀ n, n ≠ k → inst2.containers.find? (fun c => c.name = n) =
        inst.containers.find? (fun c => c.name = n))) := by
  unfold applyKwarg at h
  by_cases h1 : k = "imposeURI"
  · left
    rw [if_pos h1] at h
    exact ⟨h1, (Except.ok.inj h).symm⟩
  · right
    rw [if_neg h1] at h
    refine ⟨h1, ?_⟩
    by_cases h2 : inst.containers.any (fun c => c.name = k) = true
    · rw [if_pos h2] at h
      have he := (Except.ok.inj h).symm
      subst he
      refine ⟨rfl, rfl, appendToContainer_names _ _ _, ?_⟩
      intro n hn
      exact find?_appendToContainer_ne _ _ _ _ (fun hkn => hn hkn.symm)
    · rw [if_neg h2] at h
      by_cases h3 : k = "uriHandle"
      · rw [if_pos h3] at h; cases h
      · rw [if_neg h3] at h
        by_cases h4 : k = "uri"
        · rw [if_pos h4] at h
          cases huri : inst.uri with
          | none => rw [huri] at h; cases h
          | some u =>
            rw [huri] at h
            have he : inst = inst2 := Except.ok.inj h
            rw [← he]
            exact ⟨huri, rfl, rfl, fun n _ => rfl⟩
        · rw [if_neg h4] at h
          by_cases h5 : k ∈ classMethodNames
          · rw [if_pos h5] at h; cases h
          · rw [if_neg h5] at h
            by_cases h6 : k = "__uri__"
            · rw [if_pos h6] at h
              have he : inst = inst2 := Except.ok.inj h
              rw [← he]
              exact ⟨rfl, rfl, rfl, fun n _ => rfl⟩
            · rw [if_neg h6] at h
              by_cases h7 : k = "__properties__"
              · rw [if_pos h7] at h
                have he : inst = inst2 := Except.ok.inj h
                rw [← he]
                exact ⟨rfl, rfl, rfl, fun n _ => rfl⟩
              · rw [if_neg h7] at h; cases h

/-- The full invariant of the `kwargs` loop on a run that did not raise:
the `uri` writes extend by exactly the `imposeURI` values in order, the
final `uri` is the last override when one exists, `uriHandle` and the
attribute names never change, and a container whose name is not among the
supplied keys is untouched. -/
theorem applyKwargsAux_ok : ∀ (kwargs : List (String × String)) (inst : Instance)
    (ws : List String) (inst2 : Instance) (ws2 : List String),
    applyKwargsAux inst ws kwargs = .ok (inst2, ws2) →
    ws2 = ws ++ overrideValues kwargs ∧
    inst2.uri = ((overrideValues kwargs).reverse.head?).or inst.uri ∧
    inst2.uriHandle = inst.uriHandle ∧
    inst2.containers.map PropertyProxy.name = inst.containers.map PropertyProxy.name ∧
    (∀ n, (∀ kv ∈ kwargs, kv.1 ≠ n) →
      inst2.containers.find? (fun c => c.name = n) =
        inst.containers.find? (fun c => c.name = n)) := by
  intro kwargs
  induction kwargs with
  | nil =>
    intro inst ws inst2 ws2 h
    have hp := Except.ok.inj h
    have h1 : inst = inst2 := congrArg Prod.fst hp
    have h2 : ws = ws2 := congrArg Prod.snd hp
    rw [← h1, ← h2]
    exact ⟨by simp [overrideValues], rfl, rfl, rfl, fun n _ => rfl⟩
  | cons kv rest ih =>
    intro inst ws inst2 ws2 h
    obtain ⟨k, v⟩ := kv
    simp only [applyKwargsAux] at h
    cases hstep : applyKwarg inst k v with
    | error e => rw [hstep] at h; cases h
    | ok inst1 =>
      rw [hstep] at h
      rcases applyKwarg_ok inst k v inst1 hstep with ⟨hk, hinst1⟩ | ⟨hk, huri, huh, hnames, hfind⟩
      · subst hinst1
        rw [if_pos hk] at h
        obtain ⟨e1, e2, e3, e4, e5⟩ := ih _ _ _ _ h
        have hov : overrideValues ((k, v) :: rest) = v :: overrideValues rest := by
          simp [overrideValues, List.filter_cons, hk]
        refine ⟨?_, ?_, e3, e4, ?_⟩
        · rw [e1, hov, List.append_assoc]; rfl
        · rw [hov, e2, List.reverse_cons]
          cases (overrideValues rest).reverse with
          | nil => rfl
          | cons a t => rfl
        · intro n hn
          exact e5 n (fun kv2 hkv2 => hn kv2 (by simp [hkv2]))
      · rw [if_neg hk] at h
        obtain ⟨e1, e2, e3, e4, e5⟩ := ih _ _ _ _ h
        have hov : overrideValues ((k, v) :: rest) = overrideValues rest := by
          simp [overrideValues, List.filter_cons, hk]
        refine ⟨by rw [e1, hov], by rw [e2, hov, huri], e3.trans huh, e4.trans hnames, ?_⟩
        intro n hn
        have hkn : k ≠ n := hn (k, v) (by simp)
        rw [e5 n (fun kv2 hkv2 => hn kv2 (by simp [hkv2])), hfind n (fun hnk => hkn hnk.symm)]

/-- A supplied key that is not `imposeURI`, matches no proxy attribute, is
not one of the two plain instance attributes, is not a method of the
class, and is no dunder name makes the `kwargs` loop raise
`AttributeError`. -/
theorem applyKwargsAux_err : ∀ (kwargs : List (String × String)) (inst : Instance)
    (ws : List String) (k v : String), (k, v) ∈ kwargs → k ≠ "imposeURI" →
    k ≠ "uriHandle" → k ≠ "uri" → k ∉ classMethodNames → isDunder k = false →
    (∀ c ∈ inst.containers, c.name ≠ k) →
    (applyKwargsAux inst ws kwargs).isOk = false := by
  intro kwargs
  induction kwargs with
  | nil => intro inst ws k v hmem; simp at hmem
  | cons kv0 rest ih =>
    intro inst ws k v hmem h1 h2 h3 h4 h5 hnames
    obtain ⟨k0, v0⟩ := kv0
    simp only [applyKwargsAux]
    by_cases hk0 : k0 = k
    · subst hk0
      have hstep : applyKwarg inst k0 v0 = .error (.attributeError k0) := by
        unfold applyKwarg
        rw [if_neg h1, if_neg (by rw [any_name_eq_false inst.containers k0 hnames]; simp),
          if_neg h2, if_neg h3, if_neg h4,
          if_neg (show ¬ k0 = "__uri__" from fun hh => absurd (hh ▸ h5) (by decide)),
          if_neg (show ¬ k0 = "__properties__" from fun hh => absurd (hh ▸ h5) (by decide))]
      rw [hstep]
      rfl
    · cases hstep : applyKwarg inst k0 v0 with
      | error e => rfl
      | ok inst1 =>
        have hmem2 : (k, v) ∈ rest := by
          rcases List.mem_cons.mp hmem with hh | hh
          · exact absurd (congrArg Prod.fst hh).symm hk0
          · exact hh
        have hnames1 : ∀ c ∈ inst1.containers, c.name ≠ k := by
          have hpres : inst1.containers.map PropertyProxy.name =
              inst.containers.map PropertyProxy.name := by
            rcases applyKwarg_ok inst k0 v0 inst1 hstep with ⟨_, hi⟩ | ⟨_, _, _, hn, _⟩
            · subst hi; rfl
            · exact hn
          intro c hc
          have : c.name ∈ inst.containers.map PropertyProxy.name := by
            rw [← hpres]; exact List.mem_map_of_mem _ hc
          rcases List.mem_map.mp this with ⟨c2, hc2, hcc⟩
          rw [← hcc]
          exact hnames c2 hc2
        exact ih inst1 _ k v hmem2 h1 h2 h3 h4 h5 hnames1

theorem isOk_map_fst (e : Except PyErr (Instance × List String)) :
    (e.map (fun p => p.1)).isOk = e.isOk := by
  cases e <;> rfl

theorem isOk_exists (e : Except PyErr (Instance × List String)) (h : e.isOk = true) :
    ∃ p, e = .ok p := by
  cases e with
  | error err => simp [Except.isOk, Except.toBool] at h
  | ok p => exact ⟨p, rfl⟩

theorem universalContainers_names :
    universalContainers.map PropertyProxy.name = universalNames := rfl

theorem overrideValues_length (kwargs : List (String × String)) :
    (overrideValues kwargs).length = kwargs.countP (fun kv => kv.1 = "imposeURI") := by
  simp [overrideValues, List.countP_eq_length_filter]

theorem overrideValues_eq_nil (kwargs : List (String × String))
    (h : ∀ kv ∈ kwargs, kv.1 ≠ "imposeURI") : overrideValues kwargs = [] := by
  unfold overrideValues
  rw [List.filter_eq_nil_iff.mpr (fun a ha => by simpa using h a ha)]
  rfl

theorem overrideValues_cons_pos (k v : String) (rest : List (String × String))
    (hk : k = "imposeURI") :
    overrideValues ((k, v) :: rest) = v :: overrideValues rest := by
  simp [overrideValues, List.filter_cons, hk]

theorem overrideValues_cons_neg (k v : String) (rest : List (String × String))
    (hk : k ≠ "imposeURI") :
    overrideValues ((k, v) :: rest) = overrideValues rest := by
  simp [overrideValues, List.filter_cons, hk]

theorem overrideValues_of_nodup : ∀ (kwargs : List (String × String)) (v : String),
    (kwargs.map Prod.fst).Nodup → ("imposeURI", v) ∈ kwargs →
    overrideValues kwargs = [v] := by
  intro kwargs
  induction kwargs with
  | nil => intro v _ hmem; simp at hmem
  | cons kv0 rest ih =>
    intro v hnd hmem
    obtain ⟨k0, v0⟩ := kv0
    rw [List.map_cons, List.nodup_cons] at hnd
    rcases List.mem_cons.mp hmem with hh | hh
    · have hk0 : k0 = "imposeURI" := (congrArg Prod.fst hh).symm
      have hv0 : v0 = v := (congrArg Prod.snd hh).symm
      have hrest : overrideValues rest = [] := by
        apply overrideValues_eq_nil
        intro kv2 hkv2 hk2
        apply hnd.1
        have hm : kv2.1 ∈ rest.map Prod.fst := List.mem_map_of_mem Prod.fst hkv2
        show k0 ∈ rest.map Prod.fst
        rw [hk0, ← hk2]
        exact hm
      rw [overrideValues_cons_pos k0 v0 rest hk0, hv0, hrest]
    · by_cases hk0 : k0 = "imposeURI"
      · exfalso
        apply hnd.1
        rw [hk0]
        have : ("imposeURI", v).1 ∈ rest.map Prod.fst := List.mem_map_of_mem Prod.fst hh
        exact this
      · rw [overrideValues_cons_neg k0 v0 rest hk0]
        exact ih v hnd.2 hh

theorem initial_names_ne (cls : OntClass) (uriArg : Option URISpecification) (k : String)
    (h2 : k ∉ universalNames) (h3 : ∀ p ∈ cls.properties, p.1 ≠ k) :
    ∀ c ∈ (initialInstance cls uriArg).containers, c.name ≠ k := by
  intro c hc
  rcases List.mem_append.mp hc with hu | hp
  · have hn : c.name ∈ universalNames := by
      rw [← universalContainers_names]
      exact List.mem_map_of_mem PropertyProxy.name hu
    exact fun hk => h2 (hk ▸ hn)
  · rcases List.mem_map.mp hp with ⟨p, hpmem, hpc⟩
    intro hk
    apply h3 p hpmem
    rw [show p.1 = (⟨p.1, p.2, []⟩ : PropertyProxy).name from rfl, hpc]
    exact hk

theorem addType_uri (inst : Instance) (u : String) : (addType inst u).uri = inst.uri := rfl

theorem addType_uriHandle (inst : Instance) (u : String) :
    (addType inst u).uriHandle = inst.uriHandle := rfl

theorem find?_type_initial (cls : OntClass) (uriArg : Option URISpecification) :
    (initialInstance cls uriArg).containers.find? (fun c => c.name = "type") =
      some ⟨"type", rdfTypeURI, []⟩ := rfl

/-- Decomposition of a construction run that did not raise into its three
stages: URI generation, the `kwargs` loop, and the final `addType`. -/
theorem initAux_ok_shape (cls : OntClass) (uriArg : Option URISpecification)
    (kwargs : List (String × String)) (t : Nat) (instF : Instance) (wsF : List String)
    (h : initAux cls uriArg kwargs t = .ok (instF, wsF)) :
    ∃ inst1 ws1 instK,
      generationStep cls uriArg t = .ok (inst1, ws1) ∧
      applyKwargsAux inst1 ws1 kwargs = .ok (instK, wsF) ∧
      instF = addType instK cls.uri := by
  unfold initAux at h
  split at h
  next e heq => simp at h
  next inst1 ws1 heq =>
    split at h
    next e2 heq2 => simp at h
    next instK wsK heq2 =>
      simp only [Except.ok.injEq, Prod.mk.injEq] at h
      refine ⟨inst1, ws1, instK, heq, ?_, h.1.symm⟩
      rw [heq2, h.2]

/-- Case analysis of the URI-generation step on a run that did not raise:
either no generator handle was supplied and `self.uri` stays unassigned,
or the handle produced a URI from the class identifier and the clock. -/
theorem generationStep_shape (cls : OntClass) (uriArg : Option URISpecification)
    (t : Nat) (inst1 : Instance) (ws1 : List String)
    (h : generationStep cls uriArg t = .ok (inst1, ws1)) :
    (uriArg = none ∧ inst1 = initialInstance cls none ∧ ws1 = []) ∨
    (∃ spec gu, uriArg = some spec ∧ spec.getURI cls.uri t = some gu ∧
      inst1 = { initialInstance cls (some spec) with uri := some gu } ∧ ws1 = [gu]) := by
  cases uriArg with
  | none =>
    left
    have h2 := Except.ok.inj h
    exact ⟨rfl, (congrArg Prod.fst h2).symm, (congrArg Prod.snd h2).symm⟩
  | some spec =>
    right
    simp only [generationStep] at h
    cases hg : spec.getURI cls.uri t with
    | none => rw [hg] at h; simp at h
    | some gu =>
      rw [hg] at h
      simp only [Except.ok.injEq, Prod.mk.injEq] at h
      exact ⟨spec, gu, rfl, hg, h.1.symm, h.2.symm⟩

/-! ## The claims -/

/-- C2 (amended): `inferred_domain()` returns the property's own domain
restrictions followed by the concatenated inferred domains of the
properties it refines: every occurrence along every ancestor path is kept
(the count of a restriction is its own count plus the sum over the bases),
so a restriction reachable along two paths is counted once per path, not
once; at the level of membership the result is the union of the own
restrictions with the inferred restrictions of the refined properties.
Symmetrically for `inferred_range()`. -/
theorem C2_inferred_union_multiset (p : PropNode) (x : String) :
    (inferred_domain p).count x =
      (PropNode.domain p).count x +
        ((PropNode.bases p).map (fun b => (inferred_domain b).count x)).sum ∧
    (x ∈ inferred_domain p ↔
      x ∈ PropNode.domain p ∨ ∃ b ∈ PropNode.bases p, x ∈ inferred_domain b) ∧
    (inferred_range p).count x =
      (PropNode.range p).count x +
        ((PropNode.bases p).map (fun b => (inferred_range b).count x)).sum ∧
    (x ∈ inferred_range p ↔
      x ∈ PropNode.range p ∨ ∃ b ∈ PropNode.bases p, x ∈ inferred_range b) := by
  obtain ⟨d, r, bs⟩ := p
  refine ⟨?_, ?_, ?_, ?_⟩
  · simp [inferred_domain, List.count_append, inferredDomainList_count,
      PropNode.domain, PropNode.bases]
  · simp [inferred_domain, List.mem_append, inferredDomainList_mem,
      PropNode.domain, PropNode.bases]
  · simp [inferred_range, List.count_append, inferredRangeList_count,
      PropNode.range, PropNode.bases]
  · simp [inferred_range, List.mem_append, inferredRangeList_mem,
      PropNode.range, PropNode.bases]

/-- C2 counterexample: in the diamond hierarchy the single restriction `X`
of the shared ancestor is reachable along two ancestor paths and appears
twice in `inferred_domain()` — not once, as set semantics would demand —
and symmetrically `Y` appears twice in `inferred_range()`. -/
theorem C2_diamond_double_count :
    inferred_domain pDiamondBottom = ["L", "X", "R", "X"] ∧
    (inferred_domain pDiamondBottom).count "X" = 2 ∧
    inferred_range pDiamondBottom = ["M", "Y", "S", "Y"] ∧
    (inferred_range pDiamondBottom).count "Y" = 2 := by
  refine ⟨by decide, by decide, by decide, by decide⟩

/-- C5 (amended): domain/range inference terminates on every property
hierarchy the code can be run on — Python base-class hierarchies are
finite and acyclic, and the recursion depth is bounded by the hierarchy
depth, as the fuel-indexed unfolding shows.  The code performs no cycle
detection: no `CyclicHierarchyError` (or any other exception) exists on
this path, and on a supertype graph closed into a cycle the recursion
would simply never terminate (see the counterexample). -/
theorem C5_inference_terminates (p : PropNode) :
    inferredDomainFuel (PropNode.depth p) p = some (inferred_domain p) ∧
    inferredRangeFuel (PropNode.depth p) p = some (inferred_range p) :=
  ⟨inferredDomainFuel_complete _ p (Nat.le_refl _),
   inferredRangeFuel_complete _ p (Nat.le_refl _)⟩

/-- C5 counterexample: on the one-property graph closed into a cycle the
inference recursion never completes at any call depth — in particular it
never raises `CyclicHierarchyError` (no error value occurs in the
computation at all): the claimed cycle detection does not exist in the
code. -/
theorem C5_cycle_undetected :
    (∀ fuel, inferredDomainGraph selfLoopGraph fuel "p" = none) ∧
    selfLoopGraph.bases "p" = ["p"] :=
  ⟨selfLoop_never_completes, rfl⟩

/-- C3: evaluation of the URI generator at the failing input.  The regular
expression `\|/|#` escapes the pipe, not the slash, so `strip_from_uri`
splits only at the two-character sequence `|/` or at `#`: a `/`-separated
class identifier is returned whole (first conjunct), contrary to the
spec's "last path/fragment component, split on `/` or `#`"; the fragment
and `|/` cases behave as specified, and the generated URI embeds the whole
class identifier, then the ROT13 transform of the seed label and the
millisecond timestamp. -/
theorem C3_strip_eval :
    strip_from_uri "http://schema.org/Person" = "http://schema.org/Person" ∧
    strip_from_uri "http://schema.org#Person" = "Person" ∧
    strip_from_uri "a|/b" = "b" ∧
    URISpecification.getURI ⟨"http://base/", [("label", "abc")]⟩ "http://schema.org/Person" 0 =
      some "http://base/http://schema.org/Person/nop-0" := by
  refine ⟨by decide, by decide, by decide, by decide⟩

/-- C10: `addType(u)` only appends `u` to the `type` container: the
identifier and the `uriHandle` are unchanged, attribute names are
unchanged, every container whose name is not `type` is unchanged (at its
position), and the `type` container's value list is extended by exactly
`[u]`. -/
theorem C10_addType_frame (inst : Instance) (u : String) :
    (addType inst u).uri = inst.uri ∧
    (addType inst u).uriHandle = inst.uriHandle ∧
    (addType inst u).containers.map PropertyProxy.name =
      inst.containers.map PropertyProxy.name ∧
    (∀ (i : Nat) (c : PropertyProxy), inst.containers[i]? = some c → c.name ≠ "type" →
      (addType inst u).containers[i]? = some c) ∧
    (addType inst u).containers.find? (fun c => c.name = "type") =
      (inst.containers.find? (fun c => c.name = "type")).map
        (fun c => { c with values := c.values ++ [u] }) := by
  refine ⟨rfl, rfl, appendToContainer_names _ _ _, ?_, find?_appendToContainer_self _ _ _⟩
  intro i c hi hc
  exact getElem?_appendToContainer_ne inst.containers "type" u i c hi hc

theorem mem_triples (u : String) (cs : List PropertyProxy) (tr : String × String × String)
    (ht : tr ∈ cs.flatMap (fun c => c.values.map (fun v => (u, c.uri, v)))) :
    tr.1 = u ∧ tr.2.1 ∈ cs.map PropertyProxy.uri := by
  rcases List.mem_flatMap.mp ht with ⟨c, hc, hm⟩
  rcases List.mem_map.mp hm with ⟨v, _, ht2⟩
  rw [← ht2]
  exact ⟨rfl, List.mem_map_of_mem PropertyProxy.uri hc⟩

theorem triples_filter (u : String) : ∀ (cs : List PropertyProxy),
    (cs.map PropertyProxy.uri).Nodup →
    ∀ c ∈ cs,
      ((cs.flatMap (fun c2 => c2.values.map (fun v => (u, c2.uri, v)))).filter
        (fun tr => tr.2.1 = c.uri)).map (fun tr => tr.2.2) = c.values := by
  intro cs
  induction cs with
  | nil => intro _ c hc; simp at hc
  | cons c0 rest ih =>
    intro hnd c hc
    rw [List.map_cons, List.nodup_cons] at hnd
    rw [List.flatMap_cons, List.filter_append, List.map_append]
    rcases List.mem_cons.mp hc with hh | hh
    · have h1 : (c0.values.map (fun v => (u, c0.uri, v))).filter
          (fun tr => tr.2.1 = c.uri) = c0.values.map (fun v => (u, c0.uri, v)) := by
        apply List.filter_eq_self.mpr
        intro tr htr
        rcases List.mem_map.mp htr with ⟨v, _, ht2⟩
        rw [← ht2, hh]
        simp
      have h2 : (rest.flatMap (fun c2 => c2.values.map (fun v => (u, c2.uri, v)))).filter
          (fun tr => tr.2.1 = c.uri) = [] := by
        apply List.filter_eq_nil_iff.mpr
        intro tr htr
        have hmem := (mem_triples u rest tr htr).2
        simp only [decide_eq_true_eq]
        intro heq
        apply hnd.1
        rw [← hh, ← heq]
        exact hmem
      rw [h1, h2, hh]
      simp [List.map_map,
        show ((fun tr : String × String × String => tr.2.2) ∘ fun v => (u, c0.uri, v)) = id
          from rfl]
    · have hne : c0.uri ≠ c.uri := by
        intro heq
        apply hnd.1
        rw [heq]
        exact List.mem_map_of_mem PropertyProxy.uri hh
      have h1 : (c0.values.map (fun v => (u, c0.uri, v))).filter
          (fun tr => tr.2.1 = c.uri) = [] := by
        apply List.filter_eq_nil_iff.mpr
        intro tr htr
        rcases List.mem_map.mp htr with ⟨v, _, ht2⟩
        rw [← ht2]
        simpa using hne
      rw [h1]
      simpa using ih hnd.2 c hh

/-- C6: for an instance with an assigned identifier, `iter_rdf_statements`
yields exactly one (subject, predicate, object) triple per value in each
property container: every subject is the instance's identifier, the total
number of triples is the sum of the container sizes (so an empty container
contributes none), and — when the property identifiers are pairwise
distinct — the objects of the triples carrying one property's identifier
are exactly that container's values, in assignment order. -/
theorem C6_iter_triples (inst : Instance) (u : String) (h : inst.uri = some u) :
    ∃ ts, iter_rdf_statements inst = .ok ts ∧
      (∀ tr ∈ ts, tr.1 = u) ∧
      ts.length = (inst.containers.map (fun c => c.values.length)).sum ∧
      ((inst.containers.map PropertyProxy.uri).Nodup →
        ∀ c ∈ inst.containers,
          (ts.filter (fun tr => tr.2.1 = c.uri)).map (fun tr => tr.2.2) = c.values) := by
  refine ⟨inst.containers.flatMap (fun c => c.values.map (fun v => (u, c.uri, v))),
    ?_, ?_, ?_, ?_⟩
  · unfold iter_rdf_statements
    rw [h]
  · intro tr htr
    exact (mem_triples u inst.containers tr htr).1
  · rw [List.length_flatMap]
    congr 1
    apply List.map_congr_left
    intro c _
    simp [Function.comp]
  · intro hnd c hc
    exact triples_filter u inst.containers hnd c hc

/-- A concrete live instance: identifier `u`, a `label` value and its own
`type` value. -/
def demoInstance : Instance :=
  ⟨[⟨"label", rdfsLabelURI, ["Rex"]⟩, ⟨"type", rdfTypeURI, ["ns#C"]⟩], none, some "u"⟩

/-- C6 witness: the triple exporter property at the concrete instance
`demoInstance`. -/
theorem C6_iter_triples_witness :
    ∃ ts, iter_rdf_statements demoInstance = .ok ts ∧
      (∀ tr ∈ ts, tr.1 = "u") ∧
      ts.length = (demoInstance.containers.map (fun c => c.values.length)).sum ∧
      ((demoInstance.containers.map PropertyProxy.uri).Nodup →
        ∀ c ∈ demoInstance.containers,
          (ts.filter (fun tr => tr.2.1 = c.uri)).map (fun tr => tr.2.2) = c.values) :=
  C6_iter_triples demoInstance "u" (by decide)

/-- C9 (amended): after a construction that did not raise and in which the
caller supplied no `type` keyword, the instance's `type` container holds
exactly one value: its own class's identifier.  Ancestor class identifiers
are never appended automatically; a caller-supplied `type` keyword,
however, appends before `addType` does (see the counterexample). -/
theorem C9_single_type_value (cls : OntClass) (uriArg : Option URISpecification)
    (kwargs : List (String × String)) (t : Nat)
    (hok : (init cls uriArg kwargs t).isOk = true)
    (hk : ∀ kv ∈ kwargs, kv.1 ≠ "type") :
    (init cls uriArg kwargs t).map typeValues = .ok (some [cls.uri]) := by
  rw [init, isOk_map_fst] at hok
  obtain ⟨⟨instF, wsF⟩, hres⟩ := isOk_exists _ hok
  obtain ⟨inst1, ws1, instK, hg, hf, hinstF⟩ := initAux_ok_shape cls uriArg kwargs t instF wsF hres
  have h1 : inst1.containers.find? (fun c => c.name = "type") =
      some ⟨"type", rdfTypeURI, []⟩ := by
    rcases generationStep_shape cls uriArg t inst1 ws1 hg with ⟨_, hi, _⟩ |
      ⟨spec, gu, _, _, hi, _⟩
    · rw [hi]; exact find?_type_initial cls none
    · rw [hi]; exact find?_type_initial cls (some spec)
  have h2 := (applyKwargsAux_ok kwargs inst1 ws1 instK wsF hf).2.2.2.2 "type" hk
  have h3 : typeValues instF = some [cls.uri] := by
    rw [hinstF]
    show ((appendToContainer instK.containers "type" cls.uri).find?
      (fun c => c.name = "type")).map (fun c => c.values) = some [cls.uri]
    rw [find?_appendToContainer_self, h2, h1]
    rfl
  rw [init, hres]
  simp [Except.map, h3]

/-- C9 counterexample: constructing with an explicit `type` keyword leaves
two values in the `type` container after construction (the supplied value
and then the class identifier appended by `addType`), although `addType`
was never called again — refuting "exactly one type value unless addType
is explicitly called again". -/
theorem C9_type_kwarg_two_values :
    (init demoClass none [("type", "ns#X")] 0).map typeValues =
      .ok (some ["ns#X", "ns#C"]) ∧
    (init demoClass none [("type", "ns#X")] 0).map
        (fun inst => (typeValues inst).map List.length) = .ok (some 2) := by
  refine ⟨by decide, by decide⟩

/-- C9 witness: the amended claim at a concrete construction. -/
theorem C9_single_type_value_witness :
    (init demoClass none [("label", "Rex")] 0).isOk = true ∧
    (init demoClass none [("label", "Rex")] 0).map typeValues =
      .ok (some [demoClass.uri]) :=
  ⟨by decide,
   C9_single_type_value demoClass none [("label", "Rex")] 0 (by decide) (by decide)⟩

/-- C7: whenever construction succeeds and the caller supplied an
`imposeURI` override among the keyword arguments (keys unrepeated, as in a
Python `**kwargs` dict), the finished instance's identifier equals the
supplied value exactly — also when a generator handle is supplied, since
the override is written after the generated value. -/
theorem C7_imposeURI_overrides (cls : OntClass) (uriArg : Option URISpecification)
    (kwargs : List (String × String)) (t : Nat) (v : String)
    (hok : (init cls uriArg kwargs t).isOk = true)
    (hmem : ("imposeURI", v) ∈ kwargs)
    (hnd : (kwargs.map Prod.fst).Nodup) :
    (init cls uriArg kwargs t).map Instance.uri = .ok (some v) := by
  rw [init, isOk_map_fst] at hok
  obtain ⟨⟨instF, wsF⟩, hres⟩ := isOk_exists _ hok
  obtain ⟨inst1, ws1, instK, hg, hf, hinstF⟩ := initAux_ok_shape cls uriArg kwargs t instF wsF hres
  have h2 := (applyKwargsAux_ok kwargs inst1 ws1 instK wsF hf).2.1
  rw [overrideValues_of_nodup kwargs v hnd hmem] at h2
  have h2b : instK.uri = some v := h2.trans rfl
  rw [init, hres]
  simp [Except.map, hinstF, addType_uri, h2b]

/-- C7 witness: the override wins at a concrete construction that also
supplies a generator handle. -/
theorem C7_imposeURI_overrides_witness :
    (init demoClass (some demoHandle) [("imposeURI", "http://me")] 0).isOk = true ∧
    (init demoClass (some demoHandle) [("imposeURI", "http://me")] 0).map Instance.uri =
      .ok (some "http://me") :=
  ⟨by decide,
   C7_imposeURI_overrides demoClass (some demoHandle) [("imposeURI", "http://me")] 0
     "http://me" (by decide) (by decide) (by decide)⟩

/-- On a successful construction with a generator handle and no override,
the finished identifier is exactly the generated URI. -/
theorem init_uri_generated (cls : OntClass) (spec : URISpecification)
    (kwargs : List (String × String)) (t : Nat) (gu : String)
    (hgu : spec.getURI cls.uri t = some gu)
    (hni : ∀ kv ∈ kwargs, kv.1 ≠ "imposeURI")
    (hok : (init cls (some spec) kwargs t).isOk = true) :
    (init cls (some spec) kwargs t).map Instance.uri = .ok (some gu) := by
  rw [init, isOk_map_fst] at hok
  obtain ⟨⟨instF, wsF⟩, hres⟩ := isOk_exists _ hok
  obtain ⟨inst1, ws1, instK, hg, hf, hinstF⟩ :=
    initAux_ok_shape cls (some spec) kwargs t instF wsF hres
  rcases generationStep_shape cls (some spec) t inst1 ws1 hg with ⟨hno, _, _⟩ |
    ⟨spec2, gu2, hsp, hg2, hi, _⟩
  · simp at hno
  · have hspec : spec = spec2 := Option.some.inj hsp
    rw [← hspec] at hg2
    have hgu2 : gu2 = gu := Option.some.inj (hg2.symm.trans hgu)
    have hinst1uri : inst1.uri = some gu := by
      rw [hi]
      show some gu2 = some gu
      rw [hgu2]
    have h2 := (applyKwargsAux_ok kwargs inst1 ws1 instK wsF hf).2.1
    rw [overrideValues_eq_nil kwargs hni] at h2
    have h2b : instK.uri = inst1.uri := h2.trans rfl
    rw [init, hres]
    simp [Except.map, hinstF, addType_uri, h2b, hinst1uri]

/-- C8: two constructions in the same process through the same generator
handle (same seed label), with no override and distinct millisecond clock
readings — the disambiguator's resolution exceeding the call rate —
receive distinct identifiers. -/
theorem C8_distinct_uris (cls : OntClass) (spec : URISpecification)
    (kwargs1 kwargs2 : List (String × String)) (t1 t2 : Nat) (lab : String)
    (hlab : lookupKey spec.dict1 "label" = some lab)
    (h1 : ∀ kv ∈ kwargs1, kv.1 ≠ "imposeURI")
    (h2 : ∀ kv ∈ kwargs2, kv.1 ≠ "imposeURI")
    (ht : t1 ≠ t2)
    (hok1 : (init cls (some spec) kwargs1 t1).isOk = true)
    (hok2 : (init cls (some spec) kwargs2 t2).isOk = true) :
    (init cls (some spec) kwargs1 t1).map Instance.uri ≠
      (init cls (some spec) kwargs2 t2).map Instance.uri := by
  have hgen1 : ∃ gu1, spec.getURI cls.uri t1 = some gu1 := by
    unfold URISpecification.getURI
    rw [hlab]
    exact ⟨_, rfl⟩
  have hgen2 : ∃ gu2, spec.getURI cls.uri t2 = some gu2 := by
    unfold URISpecification.getURI
    rw [hlab]
    exact ⟨_, rfl⟩
  obtain ⟨gu1, hg1⟩ := hgen1
  obtain ⟨gu2, hg2⟩ := hgen2
  rw [init_uri_generated cls spec kwargs1 t1 gu1 hg1 h1 hok1,
    init_uri_generated cls spec kwargs2 t2 gu2 hg2 h2 hok2]
  intro heq
  have hgu : gu1 = gu2 := by simpa using heq
  apply getURI_time_injective spec cls.uri lab t1 t2 hlab ht
  rw [hg1, hg2, hgu]

/-- C8 witness: two constructions with the same label at clock readings 0
and 1 receive distinct identifiers. -/
theorem C8_distinct_uris_witness :
    (init demoClass (some demoHandle) [] 0).isOk = true ∧
    (init demoClass (some demoHandle) [] 1).isOk = true ∧
    (init demoClass (some demoHandle) [] 0).map Instance.uri ≠
      (init demoClass (some demoHandle) [] 1).map Instance.uri :=
  ⟨by decide, by decide,
   C8_distinct_uris demoClass demoHandle [] [] 0 1 "a" (by decide) (by decide) (by decide)
     (by decide) (by decide) (by decide)⟩

/-- C4 (amended): construction with a supplied property name that is
neither `imposeURI`, nor a universal property, nor a declared property,
nor one of the two plain instance attributes (`uri`, `uriHandle`), nor a
method of the class, nor a dunder name fails — but with Python's builtin
`AttributeError` from the `getattr` lookup, not with
`UnknownPropertyError`, which does not exist in the code.  (Names that do
resolve outside the containers deviate further: the methods and
`uriHandle` raise `TypeError`, while `uri` when assigned, `__uri__` and
`__properties__` let construction succeed.) -/
theorem C4_unknown_name_fails (cls : OntClass) (uriArg : Option URISpecification)
    (kwargs : List (String × String)) (t : Nat) (k v : String)
    (hmem : (k, v) ∈ kwargs) (h1 : k ≠ "imposeURI") (h2 : k ∉ universalNames)
    (h3 : ∀ p ∈ cls.properties, p.1 ≠ k) (h4 : k ≠ "uriHandle") (h5 : k ≠ "uri")
    (h6 : k ∉ classMethodNames) (h7 : isDunder k = false) :
    (init cls uriArg kwargs t).isOk = false ∧
    init cls none [(k, v)] t = .error (.attributeError k) := by
  constructor
  · rw [init, isOk_map_fst]
    unfold initAux
    cases hg : generationStep cls uriArg t with
    | error e => rfl
    | ok p =>
      obtain ⟨inst1, ws1⟩ := p
      have hns : ∀ c ∈ inst1.containers, c.name ≠ k := by
        rcases generationStep_shape cls uriArg t inst1 ws1 hg with ⟨_, hi, _⟩ |
          ⟨spec, gu, _, _, hi, _⟩
        · rw [hi]; exact initial_names_ne cls none k h2 h3
        · rw [hi]; exact initial_names_ne cls (some spec) k h2 h3
      have herr := applyKwargsAux_err kwargs inst1 ws1 k v hmem h1 h4 h5 h6 h7 hns
      show (match applyKwargsAux inst1 ws1 kwargs with
            | .error e => (Except.error e : Except PyErr (Instance × List String))
            | .ok (inst2, ws2) => Except.ok (addType inst2 cls.uri, ws2)).isOk = false
      cases hf : applyKwargsAux inst1 ws1 kwargs with
      | error e => rfl
      | ok q =>
        rw [hf] at herr
        simp [Except.isOk, Except.toBool] at herr
  · have hstep : applyKwarg (initialInstance cls none) k v =
        .error (.attributeError k) := by
      unfold applyKwarg
      rw [if_neg h1,
        if_neg (by rw [any_name_eq_false _ k (initial_names_ne cls none k h2 h3)]; simp),
        if_neg h4, if_neg h5, if_neg h6,
        if_neg (show ¬ k = "__uri__" from fun hh => absurd (hh ▸ h7) (by decide)),
        if_neg (show ¬ k = "__properties__" from fun hh => absurd (hh ▸ h7) (by decide))]
    have hfold : applyKwargsAux (initialInstance cls none) [] [(k, v)] =
        .error (.attributeError k) := by
      simp only [applyKwargsAux, hstep]
    have hinit : initAux cls none [(k, v)] t = .error (.attributeError k) := by
      unfold initAux
      rw [show generationStep cls none t =
        Except.ok (initialInstance cls none, ([] : List String)) from rfl]
      show (match applyKwargsAux (initialInstance cls none) [] [(k, v)] with
            | .error e => (Except.error e : Except PyErr (Instance × List String))
            | .ok (inst2, ws2) => Except.ok (addType inst2 cls.uri, ws2)) =
          .error (.attributeError k)
      rw [hfold]
    rw [init, hinit]
    rfl

/-- C4 counterexample: constructing with the unknown property name `breed`
fails with `AttributeError`, not with the `UnknownPropertyError` the claim
names (no such exception exists in the code). -/
theorem C4_attribute_error_not_unknown :
    init demoClass none [("breed", "Labrador")] 0 =
      .error (.attributeError "breed") ∧
    isUnknownPropertyResult (init demoClass none [("breed", "Labrador")] 0) = false := by
  refine ⟨by decide, by decide⟩

/-- C4 witness: the amended claim at the concrete unknown name `breed`. -/
theorem C4_unknown_name_fails_witness :
    (init demoClass none [("breed", "x")] 0).isOk = false ∧
    init demoClass none [("breed", "x")] 0 = .error (.attributeError "breed") :=
  C4_unknown_name_fails demoClass none [("breed", "x")] 0 "breed" "x" (by decide)
    (by decide) (by decide) (by decide) (by decide) (by decide) (by decide) (by decide)

/-- C1 (amended): on a construction that does not raise, `self.uri` is
written once per supplied identifier source — once by the generator when
the `uri` argument is supplied, plus once per `imposeURI` keyword — and
the finished identifier is the last value written (`none` when neither
source is supplied, so an instance can finish construction with no
identifier at all); after construction, `addType` — the only mutating
method of the class — leaves the identifier unchanged. -/
theorem C1_uri_assignments (cls : OntClass) (uriArg : Option URISpecification)
    (kwargs : List (String × String)) (t : Nat)
    (hok : (initAux cls uriArg kwargs t).isOk = true) :
    (initAux cls uriArg kwargs t).map (fun p => (p.2.length, p.1.uri == p.2.getLast?)) =
      .ok ((if uriArg.isSome then 1 else 0) +
        kwargs.countP (fun kv => kv.1 = "imposeURI"), true) ∧
    ∀ u, (initAux cls uriArg kwargs t).map (fun p => (addType p.1 u).uri == p.1.uri) =
      .ok true := by
  obtain ⟨⟨instF, wsF⟩, hres⟩ := isOk_exists _ hok
  obtain ⟨inst1, ws1, instK, hg, hf, hinstF⟩ := initAux_ok_shape cls uriArg kwargs t instF wsF hres
  obtain ⟨e1, e2, _, _, _⟩ := applyKwargsAux_ok kwargs inst1 ws1 instK wsF hf
  constructor
  · rw [hres]
    simp only [Except.map, Except.ok.injEq, Prod.mk.injEq]
    constructor
    · rw [e1, List.length_append, overrideValues_length]
      rcases generationStep_shape cls uriArg t inst1 ws1 hg with ⟨hu, _, hws⟩ |
        ⟨spec, gu, hu, _, _, hws⟩
      · rw [hws, hu]; simp
      · rw [hws, hu]; simp
    · rw [beq_iff_eq, hinstF, addType_uri, e2, e1]
      rcases generationStep_shape cls uriArg t inst1 ws1 hg with ⟨hu, hi, hws⟩ |
        ⟨spec, gu, hu, _, hi, hws⟩
      · rw [hws, hi, List.head?_reverse, List.nil_append]
        exact Option.or_none
      · rw [hws, hi, List.head?_reverse, List.getLast?_append]
        rfl
  · intro u
    rw [hres]
    simp [Except.map, addType_uri]

/-- C1 counterexample: a construction that supplies neither the generator
argument nor `imposeURI` completes with zero assignments to `self.uri` and
no identifier at all — refuting "exactly one identifier, assigned exactly
once during construction". -/
theorem C1_no_identifier_assigned :
    (initAux demoClass none [] 0).map (fun p => (p.1.uri, p.2)) = .ok (none, []) := by
  decide

/-- C1 witness: the amended claim at a concrete construction with a single
`imposeURI` source. -/
theorem C1_uri_assignments_witness :
    ((initAux demoClass none [("imposeURI", "u")] 0).map
        (fun p => (p.2.length, p.1.uri == p.2.getLast?)) =
      .ok ((if (none : Option URISpecification).isSome then 1 else 0) +
        [("imposeURI", "u")].countP (fun kv => kv.1 = "imposeURI"), true)) ∧
    ∀ u, (initAux demoClass none [("imposeURI", "u")] 0).map
        (fun p => (addType p.1 u).uri == p.1.uri) = .ok true :=
  C1_uri_assignments demoClass none [("imposeURI", "u")] 0 (by decide)

end OntologyAlchemy
